import Mathlib

/-!
Verification of the traversal engine of the recursive folder tree printer in
`src/main.py`.

The filesystem is modelled as a record `Fs` of the operations the program
performs (`os.scandir`, `DirEntry.is_dir`, `Path.is_dir`, `Path.stat`,
`Path.resolve`, `Path.exists`); `opsOf` packages the error-handling views the
walker actually consumes (`safe_scandir` swallowing `PermissionError` and
`FileNotFoundError`, the per-entry `is_dir` check falling back to `False` on
`OSError`).  Any other `OSError` raised while listing a directory is *not*
caught by `safe_scandir` and propagates out of `tree`; this is modelled by the
abort flag threaded through the walk and by the `TreeError.osError` result.

The recursive `walk` closure of the source is fuelled (`walk fuel`): each unit
of fuel permits one further level of recursion.  The development proves that,
with `follow_symlinks` enabled, the result is independent of the fuel once the
fuel dominates the number of distinct durable directory identities, which is
the termination argument of the source's cycle detection.

Modelling conventions (all noted where used):
  * machine strings are Lean `String`s; Python string comparison is
    code-point lexicographic, modelled by `lstrLe` on `Char.toNat`;
  * `str.lower()` is modelled per-character by `Char.toLower` (ASCII);
  * `Path(entry.path).name` equals the entry's own name for the well-formed
    names a directory listing produces, so the walker passes the listed name
    directly to `should_ignore`.
-/

namespace Tmee

/-- The `Filters` dataclass, `main.py` lines 17-23. -/
structure Filters where
  show_hidden : Bool
  dirs_only : Bool
  pattern : Option String
  ignore_names : List String
  ignore_globs : List String
deriving DecidableEq

/-- Classification of an exception raised by `os.scandir` while listing one
directory: `PermissionError`, `FileNotFoundError` (both caught by
`safe_scandir`, lines 50-58), or any other `OSError` (not caught). -/
inductive ScanErr where
  | permission
  | notFound
  | otherOS
deriving DecidableEq

/-- The raw filesystem interface used by `main.py`.  `scandirRaw d` returns
the entry names yielded before the listing either finishes (`none`) or raises
(`some e`); `isDirEntry p f` is `DirEntry.is_dir(follow_symlinks=f)` with
`none` for an `OSError`; `pIsDir` is `Path.is_dir()` (follows symlinks,
returns `false` on error); `statKey p` is the `(st_dev, st_ino)` pair of
`p.stat()` (with `-1` defaults for missing attributes) or `none` for an
`OSError`; `resolve` is `Path.resolve`; `pathExists` is `Path.exists`. -/
structure Fs where
  scandirRaw : String → List String × Option ScanErr
  isDirEntry : String → Bool → Option Bool
  pIsDir : String → Bool
  statKey : String → Option (Int × Int)
  resolve : String → String
  pathExists : String → Bool

/-- Whether a listing outcome raises out of `safe_scandir`: only an `OSError`
that is neither `PermissionError` nor `FileNotFoundError` does (lines 50-58
catch exactly those two). -/
def scanRaises : Option ScanErr → Bool
  | some ScanErr.otherOS => true
  | _ => false

/-- The views of the filesystem the walker consumes.  `scan d` gives the
names `safe_scandir` yields together with the flag that an uncaught `OSError`
is raised at the end of the listing; `isd` is the per-entry directory check
after the `try ... except OSError: is_dir = False` of lines 96-99. -/
structure FsOps where
  scan : String → List String × Bool
  isd : String → Bool → Bool
  pisd : String → Bool
  stat : String → Option (Int × Int)
  res : String → String
  pexists : String → Bool

/-- Package a raw filesystem into the walker's views. -/
def opsOf (fs : Fs) : FsOps where
  scan := fun d => ((fs.scandirRaw d).1, scanRaises (fs.scandirRaw d).2)
  isd := fun p f => (fs.isDirEntry p f).getD false
  pisd := fs.pIsDir
  stat := fs.statKey
  res := fs.resolve
  pexists := fs.pathExists

/-! ### `fnmatch` (Python `fnmatch.fnmatch` on POSIX) -/

/-- Scan a character-class body up to the closing `]`; `none` when the class
is unterminated (in which case `[` is a literal, as in `fnmatch.translate`). -/
def splitClassAux : List Char → List Char → Option (List Char × List Char)
  | [], _ => none
  | ']' :: rest, acc => some (acc.reverse, rest)
  | c :: rest, acc => splitClassAux rest (c :: acc)

/-- Parse the remainder of a pattern after `[`: optional `!` negation, a `]`
in first position is a literal member, then the class body up to `]`. -/
def parseClass (s : List Char) : Option (Bool × List Char × List Char) :=
  match s with
  | '!' :: ']' :: r2 =>
    match splitClassAux r2 [']'] with
    | some (cls, rest) => some (true, cls, rest)
    | none => none
  | '!' :: r1 =>
    match splitClassAux r1 [] with
    | some (cls, rest) => some (true, cls, rest)
    | none => none
  | ']' :: r2 =>
    match splitClassAux r2 [']'] with
    | some (cls, rest) => some (false, cls, rest)
    | none => none
  | r1 =>
    match splitClassAux r1 [] with
    | some (cls, rest) => some (false, cls, rest)
    | none => none

/-- Membership of a character in a class body: `a-b` ranges compare code
points, other characters are literal members. -/
def charInClass : List Char → Char → Bool
  | a :: '-' :: b :: rest, c =>
    (a.toNat ≤ c.toNat && c.toNat ≤ b.toNat) || charInClass rest c
  | a :: rest, c => a == c || charInClass rest c
  | [], _ => false

/-- Glob matching over character lists: `*` matches any sequence, `?` any
single character, `[...]`/`[!...]` character classes, everything else is
literal.  The whole string must match (as `fnmatch.translate` anchors with
`\Z`). -/
def globMatchL (p s : List Char) : Bool :=
  match p, s with
  | [], [] => true
  | [], _ :: _ => false
  | '*' :: ps, [] => globMatchL ps []
  | '*' :: ps, c :: s' => globMatchL ps (c :: s') || globMatchL ('*' :: ps) s'
  | '?' :: _, [] => false
  | '?' :: ps, _ :: s' => globMatchL ps s'
  | '[' :: _, [] => false
  | '[' :: ps, c :: s' =>
    match parseClass ps with
    | some (neg, cls, rest) =>
      (if neg then !(charInClass cls c) else charInClass cls c) && globMatchL rest s'
    | none => ('[' == c) && globMatchL ps s'
  | _ :: _, [] => false
  | q :: ps, c :: s' => (q == c) && globMatchL ps s'
termination_by (s.length, p.length)

/-- `fnmatch.fnmatch(name, pat)` on POSIX (`normcase` is the identity). -/
def fnmatch (name pat : String) : Bool := globMatchL pat.data name.data

/-! ### The filter (`should_ignore`, lines 34-47) -/

/-- `is_hidden`, line 26-27: the name starts with `.`. -/
def is_hidden (name : String) : Bool :=
  match name.data with
  | c :: _ => c == '.'
  | [] => false

/-- `matches_any_glob`, lines 30-31. -/
def matches_any_glob (name : String) (globs : List String) : Bool :=
  globs.any (fun g => fnmatch name g)

/-- The condition of line 43: `flt.pattern and not fnmatch(name, flt.pattern)`.
Python truthiness makes an empty pattern behave like `None`. -/
def patternBlocks (po : Option String) (name : String) : Bool :=
  match po with
  | some pat => (pat != "") && !(fnmatch name pat)
  | none => false

/-- `should_ignore(path, flt)`, lines 34-47.  `p` is the full path, `name`
its final component (`path.name`).  Note line 45 uses `path.is_dir()`
(`pisd`), which always follows symlinks, for the `dirs_only` rule. -/
def should_ignore (ops : FsOps) (p name : String) (flt : Filters) : Bool :=
  if !flt.show_hidden && is_hidden name then true
  else if flt.ignore_names.contains name then true
  else if matches_any_glob name flt.ignore_globs then true
  else if patternBlocks flt.pattern name then true
  else if flt.dirs_only && !ops.pisd p then true
  else false

/-- Filter rule 1 of the spec: hidden name while `showHidden` is off. -/
def rule_hidden (flt : Filters) (name : String) : Bool :=
  !flt.show_hidden && is_hidden name

/-- Filter rule 2: the name is exactly one of `ignore_names`. -/
def rule_ignore_name (flt : Filters) (name : String) : Bool :=
  flt.ignore_names.contains name

/-- Filter rule 3: the name matches one of `ignore_globs`. -/
def rule_ignore_glob (flt : Filters) (name : String) : Bool :=
  matches_any_glob name flt.ignore_globs

/-- Filter rule 4: a pattern is set and the name does not match it. -/
def rule_pattern_miss (flt : Filters) (name : String) : Bool :=
  patternBlocks flt.pattern name

/-- Filter rule 5: `dirs_only` and the entry is not a directory according to
`Path.is_dir()`. -/
def rule_dirs_only (ops : FsOps) (flt : Filters) (p : String) : Bool :=
  flt.dirs_only && !ops.pisd p

/-! ### Sorting (line 102) -/

/-- A listed entry: full path, name, and the directory-ness computed with the
configured `follow_symlinks` (lines 95-100). -/
abbrev EntryT := String × String × Bool

/-- Python code-point lexicographic string order (`s <= t`), on char lists. -/
def lstrLe : List Char → List Char → Bool
  | [], _ => true
  | _ :: _, [] => false
  | c :: cs, d :: ds =>
    if c.toNat < d.toNat then true
    else if d.toNat < c.toNat then false
    else lstrLe cs ds

/-- `str.lower()` modelled per character (ASCII `Char.toLower`). -/
def lowerChars (s : String) : List Char := s.data.map Char.toLower

/-- First sort key `not is_dir` of line 102, with `False < True` rendered as
`0 < 1`. -/
def entryRank (e : EntryT) : Nat := if e.2.2 then 0 else 1

/-- The sort order of line 102: key `(not is_dir, name.lower())` compared
lexicographically. -/
def entryLe (a b : EntryT) : Prop :=
  entryRank a < entryRank b ∨
    (entryRank a = entryRank b ∧ lstrLe (lowerChars a.2.1) (lowerChars b.2.1) = true)

instance : DecidableRel entryLe := fun a b => by
  unfold entryLe
  infer_instance

/-- `os.path.join(d, name)` for a simple name. -/
def endsWithSep (d : String) : Bool :=
  match d.data.getLast? with
  | some c => c == '/'
  | none => false

/-- Join a directory path and an entry name, as `os.scandir` does for
`entry.path`. -/
def pathJoin (d nm : String) : String :=
  if endsWithSep d then d ++ nm else d ++ "/" ++ nm

/-- Lines 93-103: list a directory's children, compute each entry's
directory-ness under the configured `follow_symlinks`, sort (stable, by
`(not is_dir, name.lower())` — `List.insertionSort` is stable, so it agrees
with Python's stable sort), then drop ignored entries. -/
def childEntries (ops : FsOps) (flt : Filters) (follow : Bool) (d : String) :
    List EntryT :=
  (List.insertionSort entryLe
    ((ops.scan d).1.map
      (fun nm => (pathJoin d nm, nm, ops.isd (pathJoin d nm) follow)))).filter
    (fun e => !should_ignore ops e.1 e.2.1 flt)

/-! ### Visited sets and the walker state -/

/-- The two visited sets of lines 68-69: `seen_dirs` of `(st_dev, st_ino)`
keys and `seen_realpaths` of resolved path strings. -/
structure Seen where
  seen_dirs : List (Int × Int)
  seen_realpaths : List String
deriving DecidableEq

/-- Accumulated output lines plus the visited sets: the mutable state the
nested closures of `tree` share. -/
structure WState where
  lines : List String
  sn : Seen
deriving DecidableEq

/-- The resolved-path fallback of `mark_seen`, lines 83-87. -/
def markSeenFallback (ops : FsOps) (sn : Seen) (p : String) : Bool × Seen :=
  if ops.res p ∈ sn.seen_realpaths then (true, sn)
  else (false, ⟨sn.seen_dirs, ops.res p :: sn.seen_realpaths⟩)

/-- `mark_seen(p)`, lines 71-87: try the `(st_dev, st_ino)` key, falling back
to the resolved path when `stat` raises or the attributes are missing
(`key == (-1, -1)`).  Returns whether `p` was already seen, and the updated
visited sets. -/
def markSeen (ops : FsOps) (sn : Seen) (p : String) : Bool × Seen :=
  match ops.stat p with
  | some key =>
    if key ≠ (-1, -1) then
      if key ∈ sn.seen_dirs then (true, sn)
      else (false, ⟨key :: sn.seen_dirs, sn.seen_realpaths⟩)
    else markSeenFallback ops sn p
  | none => markSeenFallback ops sn p

/-- Append one output line. -/
def pushLine (st : WState) (l : String) : WState := ⟨st.lines ++ [l], st.sn⟩

/-- Line 107-108: the entry's own line. -/
def renderLine (pre nm : String) (isDir last : Bool) : String :=
  pre ++ (if last then "└── " else "├── ") ++ nm ++ (if isDir then "/" else "")

/-- Lines 112/114: the continuation of the indentation for a child level. -/
def childExt (last : Bool) : String := if last then "    " else "│   "

/-- Line 112: the synthetic cycle-marker line. -/
def cycleLine (pre : String) (last : Bool) : String :=
  pre ++ childExt last ++ "↩︎ (cycle)"

/-- Line 90: `max_depth is not None and depth > max_depth`. -/
def depthExceeded (md : Option Int) (depth : Int) : Bool :=
  match md with
  | some m => decide (m < depth)
  | none => false

/-- The loop of lines 105-115 over the (sorted, filtered) entries of one
directory.  `recur` is the recursive `walk` into a child directory; the
`Bool` of a result is the flag that an uncaught `OSError` is propagating, in
which case all remaining processing is skipped. -/
def walkEntriesGo (ops : FsOps) (flt : Filters) (follow : Bool)
    (recur : String → String → Int → WState → WState × Bool)
    (pre : String) (depth : Int) : List EntryT → WState → WState × Bool
  | [], st => (st, false)
  | (p, nm, isDir) :: rest, st =>
    let st1 := pushLine st (renderLine pre nm isDir rest.isEmpty)
    if isDir then
      if follow then
        match markSeen ops st1.sn p with
        | (true, _) =>
          walkEntriesGo ops flt follow recur pre depth rest
            (pushLine st1 (cycleLine pre rest.isEmpty))
        | (false, sn') =>
          match recur p (pre ++ childExt rest.isEmpty) (depth + 1) ⟨st1.lines, sn'⟩ with
          | (st₂, true) => (st₂, true)
          | (st₂, false) => walkEntriesGo ops flt follow recur pre depth rest st₂
      else
        match recur p (pre ++ childExt rest.isEmpty) (depth + 1) st1 with
        | (st₂, true) => (st₂, true)
        | (st₂, false) => walkEntriesGo ops flt follow recur pre depth rest st₂
    else walkEntriesGo ops flt follow recur pre depth rest st1

/-- One level of `walk(dir_path, prefix, depth)`, lines 89-115: stop past the
depth limit, list the directory (aborting if the listing raises an uncaught
`OSError`), then process the children, recursing via `recur`. -/
def walkF (ops : FsOps) (flt : Filters) (md : Option Int) (follow : Bool)
    (recur : String → String → Int → WState → WState × Bool)
    (d pre : String) (depth : Int) (st : WState) : WState × Bool :=
  if depthExceeded md depth then (st, false)
  else if (ops.scan d).2 then (st, true)
  else walkEntriesGo ops flt follow recur pre depth (childEntries ops flt follow d) st

/-- The fuelled recursive walker. -/
def walk (ops : FsOps) (flt : Filters) (md : Option Int) (follow : Bool) :
    Nat → String → String → Int → WState → WState × Bool
  | 0 => fun _ _ _ st => (st, false)
  | fuel + 1 => walkF ops flt md follow (walk ops flt md follow fuel)

/-- The two fatal root-validation errors of lines 117-121, plus the uncaught
`OSError` a listing can propagate (section 7 of the source's behaviour). -/
inductive TreeError where
  | notFound : String → TreeError
  | notADirectory : String → TreeError
  | osError : TreeError
deriving DecidableEq

/-- `tree(root, flt, max_depth, follow_symlinks)`, lines 61-127, over the
walker views. -/
def treeCore (ops : FsOps) (rootArg : String) (flt : Filters)
    (md : Option Int) (follow : Bool) (fuel : Nat) :
    Except TreeError (List String) :=
  let root := ops.res rootArg
  if !ops.pexists root then .error (.notFound root)
  else if !ops.pisd root then .error (.notADirectory root)
  else
    let st0 : WState := ⟨[root ++ "/"], ⟨[], []⟩⟩
    let st1 := if follow then ⟨st0.lines, (markSeen ops st0.sn root).2⟩ else st0
    match walk ops flt md follow fuel root "" 1 st1 with
    | (_, true) => .error .osError
    | (st, false) => .ok st.lines

/-- `tree` on a raw filesystem. -/
def tree (fs : Fs) (rootArg : String) (flt : Filters) (md : Option Int)
    (follow : Bool) (fuel : Nat) : Except TreeError (List String) :=
  treeCore (opsOf fs) rootArg flt md follow fuel

/-! ### Error erasure (for the error-handling claims) -/

/-- Keep only the listing errors `safe_scandir` does *not* catch. -/
def keepOnlyRaising : Option ScanErr → Option ScanErr
  | some ScanErr.otherOS => some ScanErr.otherOS
  | _ => none

/-- Remove every failure the walker recovers from: `PermissionError` and
`FileNotFoundError` listing outcomes become clean ends of the same listing
prefix, and per-entry `is_dir` failures become a definite `False`.  Errors
that `safe_scandir` does not catch are kept. -/
def eraseCaughtErrors (fs : Fs) : Fs :=
  { fs with
    scandirRaw := fun d => ((fs.scandirRaw d).1, keepOnlyRaising (fs.scandirRaw d).2)
    isDirEntry := fun p f => some ((fs.isDirEntry p f).getD false) }

/-! ### Durable identities (for termination / cycle claims) -/

/-- A finite filesystem, for the purpose of cycle detection: every usable
`(st_dev, st_ino)` key lies in `D`, and the resolved path of every path on
which `mark_seen` would fall back to the resolved-path identity lies in
`R`. -/
def IdBound (ops : FsOps) (D : Finset (Int × Int)) (R : Finset String) : Prop :=
  (∀ p k, ops.stat p = some k → k ≠ (-1, -1) → k ∈ D) ∧
    (∀ p, ops.stat p = none ∨ ops.stat p = some (-1, -1) → ops.res p ∈ R)

/-- How many identities of the finite universes are not yet marked seen. -/
def remaining (D : Finset (Int × Int)) (R : Finset String) (sn : Seen) : Nat :=
  (D.filter (fun k => k ∉ sn.seen_dirs)).card +
    (R.filter (fun r => r ∉ sn.seen_realpaths)).card

/-- One visited-set state is contained in another. -/
def seenSub (a b : Seen) : Prop :=
  (∀ k, k ∈ a.seen_dirs → k ∈ b.seen_dirs) ∧
    (∀ r, r ∈ a.seen_realpaths → r ∈ b.seen_realpaths)

/-- The durable identity `mark_seen` would use for `p` is recorded in the
visited sets: the `(st_dev, st_ino)` key when `stat` succeeds with real
attributes, the resolved path otherwise. -/
def idRecorded (ops : FsOps) (p : String) (sn : Seen) : Prop :=
  match ops.stat p with
  | some key =>
    if key ≠ (-1, -1) then key ∈ sn.seen_dirs
    else ops.res p ∈ sn.seen_realpaths
  | none => ops.res p ∈ sn.seen_realpaths

/-! ### Concrete filesystems for the scenario claims -/

/-- The default configuration of `main()`: hidden entries shown, no filters. -/
def defaultFlt : Filters := ⟨true, false, none, [], []⟩

/-- `--dirs-only` with everything else at the default. -/
def dirsOnlyFlt : Filters := ⟨true, true, none, [], []⟩

/-- `--hide-dot` with everything else at the default. -/
def hideDotFlt : Filters := ⟨false, false, none, [], []⟩

/-- Root `/a` containing the empty subdirectory `/a/b` and the regular file
`/a/x.txt` (spec scenario for the basic three-line output). -/
def fsA : Fs :=
  { scandirRaw := fun d => if d = "/a" then (["b", "x.txt"], none) else ([], none)
  , isDirEntry := fun p _ => if p = "/a/b" then some true else some false
  , pIsDir := fun p => p == "/a" || p == "/a/b"
  , statKey := fun p =>
      if p = "/a" then some (1, 1) else if p = "/a/b" then some (1, 2) else some (1, 3)
  , resolve := fun p => p
  , pathExists := fun p => p == "/a" || p == "/a/b" || p == "/a/x.txt" }

/-- Root `/a` with the nested chain `/a/b/c` (spec scenario for
`maxDepth=1`). -/
def fsChain : Fs :=
  { scandirRaw := fun d =>
      if d = "/a" then (["b"], none)
      else if d = "/a/b" then (["c"], none)
      else ([], none)
  , isDirEntry := fun p _ => if p = "/a/b" then some true
      else if p = "/a/b/c" then some true else some false
  , pIsDir := fun p => p == "/a" || p == "/a/b" || p == "/a/b/c"
  , statKey := fun p =>
      if p = "/a" then some (2, 1) else if p = "/a/b" then some (2, 2)
      else if p = "/a/b/c" then some (2, 3) else some (2, 9)
  , resolve := fun p => p
  , pathExists := fun p => p == "/a" || p == "/a/b" || p == "/a/b/c" }

/-- Root `/a` containing a single symbolic link `/a/link` to a directory
elsewhere: without following, the entry-level `is_dir` check reports `false`
(it is a symlink), while `Path.is_dir()` (which always follows) reports
`true`. -/
def fsLink : Fs :=
  { scandirRaw := fun d => if d = "/a" then (["link"], none) else ([], none)
  , isDirEntry := fun p f => if p = "/a/link" then some f else some false
  , pIsDir := fun p => p == "/a" || p == "/a/link"
  , statKey := fun p => if p = "/a" then some (3, 1) else some (3, 2)
  , resolve := fun p => p
  , pathExists := fun p => p == "/a" || p == "/a/link" }

/-- Root `/a` containing directory `/a/b`, which contains the symbolic link
`/a/b/up` pointing back to the ancestor `/a`: following the link, `stat`
gives the ancestor's `(st_dev, st_ino)` key `(1, 1)`. -/
def fsLoop : Fs :=
  { scandirRaw := fun d =>
      if d = "/a" then (["b"], none)
      else if d = "/a/b" then (["up"], none)
      else ([], none)
  , isDirEntry := fun p f =>
      if p = "/a/b" then some true
      else if p = "/a/b/up" then some f else some false
  , pIsDir := fun p => p == "/a" || p == "/a/b" || p == "/a/b/up"
  , statKey := fun p =>
      if p = "/a" then some (1, 1) else if p = "/a/b" then some (1, 2)
      else if p = "/a/b/up" then some (1, 1) else some (1, 9)
  , resolve := fun p => p
  , pathExists := fun p => p == "/a" || p == "/a/b" || p == "/a/b/up" }

/-- The identity universe of `fsLoop`. -/
def loopD : Finset (Int × Int) := {(1, 1), (1, 2), (1, 9)}

/-- `fsLoop` never falls back to resolved paths. -/
def loopR : Finset String := ∅

/-- Root `/a` containing directory `/a/b` (which has a child `/a/b/c`) and
the symbolic link `/a/link` to `/a/b`, so that `/a/b` and `/a/link` share
the durable identity `(4, 2)`. -/
def fsTwo : Fs :=
  { scandirRaw := fun d =>
      if d = "/a" then (["b", "link"], none)
      else if d = "/a/b" then (["c"], none)
      else ([], none)
  , isDirEntry := fun p f =>
      if p = "/a/b" then some true
      else if p = "/a/b/c" then some true
      else if p = "/a/link" then some f else some false
  , pIsDir := fun p => p == "/a" || p == "/a/b" || p == "/a/b/c" || p == "/a/link"
  , statKey := fun p =>
      if p = "/a" then some (4, 1) else if p = "/a/b" then some (4, 2)
      else if p = "/a/b/c" then some (4, 3)
      else if p = "/a/link" then some (4, 2) else some (4, 9)
  , resolve := fun p => p
  , pathExists := fun p => p == "/a" || p == "/a/b" || p == "/a/b/c" || p == "/a/link" }

/-- Root `/a` whose listing raises an `OSError` that is neither
`PermissionError` nor `FileNotFoundError`. -/
def fsErr : Fs :=
  { scandirRaw := fun d => if d = "/a" then ([], some ScanErr.otherOS) else ([], none)
  , isDirEntry := fun _ _ => some false
  , pIsDir := fun p => p == "/a"
  , statKey := fun _ => some (5, 1)
  , resolve := fun p => p
  , pathExists := fun p => p == "/a" }

/-! ### Helper lemmas: the sort order is a total preorder -/

theorem lstrLe_total : ∀ a b : List Char, lstrLe a b = true ∨ lstrLe b a = true := by
  intro a
  induction a with
  | nil => intro b; left; rfl
  | cons c cs ih =>
    intro b
    cases b with
    | nil => right; rfl
    | cons d ds =>
      by_cases h1 : c.toNat < d.toNat
      · left; simp [lstrLe, h1]
      · by_cases h2 : d.toNat < c.toNat
        · right; simp [lstrLe, h2]
        · rcases ih ds with h | h
          · left; simp [lstrLe, h1, h2, h]
          · right; simp [lstrLe, h1, h2, h]

theorem lstrLe_trans :
    ∀ a b c : List Char, lstrLe a b = true → lstrLe b c = true → lstrLe a c = true := by
  intro a
  induction a with
  | nil => intro b c _ _; rfl
  | cons x xs ih =>
    intro b c h1 h2
    cases b with
    | nil => simp [lstrLe] at h1
    | cons y ys =>
      cases c with
      | nil => simp [lstrLe] at h2
      | cons z zs =>
        rcases Nat.lt_trichotomy x.toNat y.toNat with hxy | hxy | hxy
        · rcases Nat.lt_trichotomy y.toNat z.toNat with hyz | hyz | hyz
          · simp [lstrLe, show x.toNat < z.toNat by omega]
          · simp [lstrLe, show x.toNat < z.toNat by omega]
          · simp [lstrLe, show ¬ y.toNat < z.toNat by omega, hyz] at h2
        · rcases Nat.lt_trichotomy y.toNat z.toNat with hyz | hyz | hyz
          · simp [lstrLe, show x.toNat < z.toNat by omega]
          · simp only [lstrLe, show ¬ x.toNat < y.toNat by omega,
              show ¬ y.toNat < x.toNat by omega, if_false, if_neg] at h1
            simp only [lstrLe, show ¬ y.toNat < z.toNat by omega,
              show ¬ z.toNat < y.toNat by omega, if_false, if_neg] at h2
            simp only [lstrLe, show ¬ x.toNat < z.toNat by omega,
              show ¬ z.toNat < x.toNat by omega, if_false, if_neg]
            exact ih ys zs h1 h2
          · simp [lstrLe, show ¬ y.toNat < z.toNat by omega, hyz] at h2
        · simp [lstrLe, show ¬ x.toNat < y.toNat by omega, hxy] at h1

instance : IsTotal EntryT entryLe := by
  constructor
  intro a b
  unfold entryLe
  rcases Nat.lt_trichotomy (entryRank a) (entryRank b) with h | h | h
  · exact Or.inl (Or.inl h)
  · rcases lstrLe_total (lowerChars a.2.1) (lowerChars b.2.1) with hl | hl
    · exact Or.inl (Or.inr ⟨h, hl⟩)
    · exact Or.inr (Or.inr ⟨h.symm, hl⟩)
  · exact Or.inr (Or.inl h)

instance : IsTrans EntryT entryLe := by
  constructor
  intro a b c h1 h2
  unfold entryLe at *
  rcases h1 with h1 | ⟨h1e, h1l⟩ <;> rcases h2 with h2 | ⟨h2e, h2l⟩
  · exact Or.inl (h1.trans h2)
  · exact Or.inl (h2e ▸ h1)
  · exact Or.inl (h1e ▸ h2)
  · exact Or.inr ⟨h1e.trans h2e, lstrLe_trans _ _ _ h1l h2l⟩

/-- `entryLe` implies the shape of the ordering claim: directories precede
non-directories, and within a group the lowercased names ascend. -/
theorem entryLe_imp (a b : EntryT) (h : entryLe a b) :
    (b.2.2 = true → a.2.2 = true) ∧
      (a.2.2 = b.2.2 → lstrLe (lowerChars a.2.1) (lowerChars b.2.1) = true) := by
  constructor
  · intro hb
    cases ha : a.2.2
    · exfalso
      rcases h with h | ⟨he, _⟩
      · simp [entryRank, ha, hb] at h
      · simp [entryRank, ha, hb] at he
    · rfl
  · intro hab
    rcases h with h | ⟨_, hl⟩
    · exfalso; simp [entryRank, hab] at h
    · exact hl

/-! ### Helper lemmas: visited sets -/

theorem seenSub_refl (sn : Seen) : seenSub sn sn := ⟨fun _ h => h, fun _ h => h⟩

theorem seenSub_trans {a b c : Seen} (h1 : seenSub a b) (h2 : seenSub b c) :
    seenSub a c :=
  ⟨fun k hk => h2.1 k (h1.1 k hk), fun r hr => h2.2 r (h1.2 r hr)⟩

theorem markSeen_true_snd (ops : FsOps) (sn : Seen) (p : String)
    (h : (markSeen ops sn p).1 = true) : (markSeen ops sn p).2 = sn := by
  revert h
  unfold markSeen markSeenFallback
  cases ops.stat p with
  | none =>
    dsimp only
    split
    · intro _; rfl
    · intro h; simp at h
  | some key =>
    dsimp only
    split
    · split
      · intro _; rfl
      · intro h; simp at h
    · split
      · intro _; rfl
      · intro h; simp at h

theorem markSeen_sub (ops : FsOps) (sn : Seen) (p : String) :
    seenSub sn (markSeen ops sn p).2 := by
  unfold markSeen markSeenFallback
  cases ops.stat p with
  | none =>
    dsimp only
    split
    · exact seenSub_refl sn
    · exact ⟨fun k hk => hk, fun r hr => List.mem_cons_of_mem _ hr⟩
  | some key =>
    dsimp only
    split
    · split
      · exact seenSub_refl sn
      · exact ⟨fun k hk' => List.mem_cons_of_mem _ hk', fun r hr => hr⟩
    · split
      · exact seenSub_refl sn
      · exact ⟨fun k hk' => hk', fun r hr => List.mem_cons_of_mem _ hr⟩

theorem remaining_mono {D : Finset (Int × Int)} {R : Finset String} {a b : Seen}
    (h : seenSub a b) : remaining D R b ≤ remaining D R a := by
  unfold remaining
  apply Nat.add_le_add
  · apply Finset.card_le_card
    intro x hx
    simp only [Finset.mem_filter] at hx ⊢
    exact ⟨hx.1, fun hc => hx.2 (h.1 x hc)⟩
  · apply Finset.card_le_card
    intro x hx
    simp only [Finset.mem_filter] at hx ⊢
    exact ⟨hx.1, fun hc => hx.2 (h.2 x hc)⟩

theorem remaining_le (D : Finset (Int × Int)) (R : Finset String) (sn : Seen) :
    remaining D R sn ≤ D.card + R.card :=
  Nat.add_le_add (Finset.card_filter_le _ _) (Finset.card_filter_le _ _)

/-- Inserting a fresh element of the universe into the realpath set strictly
shrinks the unseen part. -/
theorem remaining_insert_real {R : Finset String} {reals : List String}
    {rp : String} (hR : rp ∈ R) (hm : rp ∉ reals) :
    (R.filter (fun r => r ∉ rp :: reals)).card <
      (R.filter (fun r => r ∉ reals)).card := by
  apply Finset.card_lt_card
  have hsub : R.filter (fun r => r ∉ rp :: reals) ⊆
      R.filter (fun r => r ∉ reals) := by
    intro x hx
    simp only [Finset.mem_filter, List.mem_cons] at hx ⊢
    exact ⟨hx.1, fun hc => hx.2 (Or.inr hc)⟩
  refine (Finset.ssubset_iff_of_subset hsub).2 ⟨rp, ?_, ?_⟩
  · simp only [Finset.mem_filter]; exact ⟨hR, hm⟩
  · simp [Finset.mem_filter]

/-- Inserting a fresh element of the universe into the device/inode set
strictly shrinks the unseen part. -/
theorem remaining_insert_dir {D : Finset (Int × Int)} {dirs : List (Int × Int)}
    {key : Int × Int} (hD : key ∈ D) (hm : key ∉ dirs) :
    (D.filter (fun k => k ∉ key :: dirs)).card <
      (D.filter (fun k => k ∉ dirs)).card := by
  apply Finset.card_lt_card
  have hsub : D.filter (fun k => k ∉ key :: dirs) ⊆
      D.filter (fun k => k ∉ dirs) := by
    intro x hx
    simp only [Finset.mem_filter, List.mem_cons] at hx ⊢
    exact ⟨hx.1, fun hc => hx.2 (Or.inr hc)⟩
  refine (Finset.ssubset_iff_of_subset hsub).2 ⟨key, ?_, ?_⟩
  · simp only [Finset.mem_filter]; exact ⟨hD, hm⟩
  · simp [Finset.mem_filter]

theorem markSeen_false_remaining {ops : FsOps} {D : Finset (Int × Int)}
    {R : Finset String} (hb : IdBound ops D R) {sn sn' : Seen} {p : String}
    (h : markSeen ops sn p = (false, sn')) :
    remaining D R sn' < remaining D R sn := by
  revert h
  unfold markSeen markSeenFallback
  cases hst : ops.stat p with
  | none =>
    dsimp only
    split
    · intro h; simp at h
    · intro h
      have h2 : (⟨sn.seen_dirs, ops.res p :: sn.seen_realpaths⟩ : Seen) = sn' :=
        congrArg Prod.snd h
      have hR : ops.res p ∈ R := hb.2 p (Or.inl hst)
      rw [← h2]
      unfold remaining
      rename_i hm
      exact Nat.add_lt_add_left (remaining_insert_real hR hm) _
  | some key =>
    dsimp only
    split
    · split
      · intro h; simp at h
      · intro h
        have h2 : (⟨key :: sn.seen_dirs, sn.seen_realpaths⟩ : Seen) = sn' :=
          congrArg Prod.snd h
        rename_i hk hm
        have hD : key ∈ D := hb.1 p key hst hk
        rw [← h2]
        unfold remaining
        exact Nat.add_lt_add_right (remaining_insert_dir hD hm) _
    · split
      · intro h; simp at h
      · intro h
        have h2 : (⟨sn.seen_dirs, ops.res p :: sn.seen_realpaths⟩ : Seen) = sn' :=
          congrArg Prod.snd h
        rename_i hk hm
        have hkey : key = (-1, -1) := by
          by_contra hc; exact hk hc
        have hR : ops.res p ∈ R := hb.2 p (Or.inr (by rw [hst, hkey]))
        rw [← h2]
        unfold remaining
        exact Nat.add_lt_add_left (remaining_insert_real hR hm) _

theorem markSeen_records (ops : FsOps) (sn : Seen) (p : String) :
    idRecorded ops p (markSeen ops sn p).2 := by
  unfold markSeen markSeenFallback idRecorded
  cases ops.stat p with
  | none =>
    dsimp only
    split
    · rename_i hm; exact hm
    · exact List.mem_cons_self _ _
  | some key =>
    dsimp only
    split
    · split
      · rename_i hm; exact hm
      · exact List.mem_cons_self _ _
    · split
      · rename_i hm; exact hm
      · exact List.mem_cons_self _ _

theorem markSeen_of_recorded (ops : FsOps) (sn : Seen) (p : String)
    (h : idRecorded ops p sn) : markSeen ops sn p = (true, sn) := by
  revert h
  unfold markSeen markSeenFallback idRecorded
  cases ops.stat p with
  | none =>
    dsimp only
    intro h
    rw [if_pos h]
  | some key =>
    dsimp only
    split
    · rename_i hk
      intro h
      rw [if_pos h]
    · rename_i hk
      intro h
      rw [if_pos h]

/-! ### Helper lemmas: one step of the walker -/

theorem go_nil (ops : FsOps) (flt : Filters) (follow : Bool) (recur)
    (pre : String) (depth : Int) (st : WState) :
    walkEntriesGo ops flt follow recur pre depth [] st = (st, false) := rfl

theorem go_cons_nondir (ops : FsOps) (flt : Filters) (follow : Bool) (recur)
    (pre : String) (depth : Int) (p nm : String) (rest : List EntryT)
    (st : WState) :
    walkEntriesGo ops flt follow recur pre depth ((p, nm, false) :: rest) st =
      walkEntriesGo ops flt follow recur pre depth rest
        (pushLine st (renderLine pre nm false rest.isEmpty)) := rfl

theorem go_cons_nofollow (ops : FsOps) (flt : Filters) (recur)
    (pre : String) (depth : Int) (p nm : String) (rest : List EntryT)
    (st : WState) :
    walkEntriesGo ops flt false recur pre depth ((p, nm, true) :: rest) st =
      match recur p (pre ++ childExt rest.isEmpty) (depth + 1)
          ⟨st.lines ++ [renderLine pre nm true rest.isEmpty], st.sn⟩ with
      | (st₂, true) => (st₂, true)
      | (st₂, false) => walkEntriesGo ops flt false recur pre depth rest st₂ := rfl

theorem go_cons_follow_seen (ops : FsOps) (flt : Filters) (recur)
    (pre : String) (depth : Int) (p nm : String) (rest : List EntryT)
    (st : WState) (h : (markSeen ops st.sn p).1 = true) :
    walkEntriesGo ops flt true recur pre depth ((p, nm, true) :: rest) st =
      walkEntriesGo ops flt true recur pre depth rest
        ⟨st.lines ++ [renderLine pre nm true rest.isEmpty,
            cycleLine pre rest.isEmpty], st.sn⟩ := by
  rcases hm : markSeen ops st.sn p with ⟨mb, sn'⟩
  rw [hm] at h
  dsimp only at h
  subst h
  show (match markSeen ops st.sn p with
    | (true, _) =>
      walkEntriesGo ops flt true recur pre depth rest
        (pushLine (pushLine st (renderLine pre nm true rest.isEmpty))
          (cycleLine pre rest.isEmpty))
    | (false, sn') =>
      match recur p (pre ++ childExt rest.isEmpty) (depth + 1)
          ⟨(pushLine st (renderLine pre nm true rest.isEmpty)).lines, sn'⟩ with
      | (st₂, true) => (st₂, true)
      | (st₂, false) => walkEntriesGo ops flt true recur pre depth rest st₂) = _
  rw [hm]
  dsimp only [pushLine]
  rw [List.append_assoc]
  rfl

theorem go_cons_follow_new (ops : FsOps) (flt : Filters) (recur)
    (pre : String) (depth : Int) (p nm : String) (rest : List EntryT)
    (st : WState) (sn' : Seen) (h : markSeen ops st.sn p = (false, sn')) :
    walkEntriesGo ops flt true recur pre depth ((p, nm, true) :: rest) st =
      match recur p (pre ++ childExt rest.isEmpty) (depth + 1)
          ⟨st.lines ++ [renderLine pre nm true rest.isEmpty], sn'⟩ with
      | (st₂, true) => (st₂, true)
      | (st₂, false) => walkEntriesGo ops flt true recur pre depth rest st₂ := by
  show (match markSeen ops st.sn p with
    | (true, _) =>
      walkEntriesGo ops flt true recur pre depth rest
        (pushLine (pushLine st (renderLine pre nm true rest.isEmpty))
          (cycleLine pre rest.isEmpty))
    | (false, sn') =>
      match recur p (pre ++ childExt rest.isEmpty) (depth + 1)
          ⟨(pushLine st (renderLine pre nm true rest.isEmpty)).lines, sn'⟩ with
      | (st₂, true) => (st₂, true)
      | (st₂, false) => walkEntriesGo ops flt true recur pre depth rest st₂) = _
  rw [h]
  rfl

theorem walk_zero (ops : FsOps) (flt : Filters) (md : Option Int)
    (follow : Bool) (d pre : String) (depth : Int) (st : WState) :
    walk ops flt md follow 0 d pre depth st = (st, false) := rfl

theorem walk_succ (ops : FsOps) (flt : Filters) (md : Option Int)
    (follow : Bool) (fuel : Nat) (d pre : String) (depth : Int) (st : WState) :
    walk ops flt md follow (fuel + 1) d pre depth st =
      (if depthExceeded md depth then (st, false)
       else if (ops.scan d).2 then (st, true)
       else walkEntriesGo ops flt follow (walk ops flt md follow fuel) pre depth
         (childEntries ops flt follow d) st) := rfl

theorem walk_stop (ops : FsOps) (flt : Filters) (md : Option Int)
    (follow : Bool) (fuel : Nat) (d pre : String) (depth : Int) (st : WState)
    (h : depthExceeded md depth = true) :
    walk ops flt md follow fuel d pre depth st = (st, false) := by
  cases fuel with
  | zero => rfl
  | succ n => rw [walk_succ, if_pos h]

/-! ### Helper lemmas: the visited sets only grow during a walk -/

theorem go_seenSub (ops : FsOps) (flt : Filters) (follow : Bool) (recur)
    (hrec : ∀ p pre depth st, seenSub st.sn ((recur p pre depth st).1).sn) :
    ∀ (l : List EntryT) (pre : String) (depth : Int) (st : WState),
      seenSub st.sn ((walkEntriesGo ops flt follow recur pre depth l st).1).sn := by
  intro l
  induction l with
  | nil => intro pre depth st; exact seenSub_refl _
  | cons e rest ih =>
    rcases e with ⟨p, nm, isDir⟩
    intro pre depth st
    cases isDir with
    | false => exact ih pre depth (pushLine st (renderLine pre nm false rest.isEmpty))
    | true =>
      cases follow with
      | false =>
        rw [go_cons_nofollow]
        rcases hr : recur p (pre ++ childExt rest.isEmpty) (depth + 1)
            ⟨st.lines ++ [renderLine pre nm true rest.isEmpty], st.sn⟩ with ⟨st₂, b⟩
        have h1 : seenSub st.sn st₂.sn := by
          have := hrec p (pre ++ childExt rest.isEmpty) (depth + 1)
            ⟨st.lines ++ [renderLine pre nm true rest.isEmpty], st.sn⟩
          rw [hr] at this
          exact this
        cases b with
        | true => exact h1
        | false => exact seenSub_trans h1 (ih pre depth st₂)
      | true =>
        rcases hm : markSeen ops st.sn p with ⟨mb, sn'⟩
        cases mb with
        | true =>
          rw [go_cons_follow_seen ops flt recur pre depth p nm rest st (by rw [hm])]
          exact ih pre depth
            ⟨st.lines ++ [renderLine pre nm true rest.isEmpty, cycleLine pre rest.isEmpty], st.sn⟩
        | false =>
          have hsub : seenSub st.sn sn' := by
            have := markSeen_sub ops st.sn p
            rw [hm] at this
            exact this
          rw [go_cons_follow_new ops flt recur pre depth p nm rest st sn' hm]
          rcases hr : recur p (pre ++ childExt rest.isEmpty) (depth + 1)
              ⟨st.lines ++ [renderLine pre nm true rest.isEmpty], sn'⟩ with ⟨st₂, b⟩
          have h1 : seenSub sn' st₂.sn := by
            have := hrec p (pre ++ childExt rest.isEmpty) (depth + 1)
              ⟨st.lines ++ [renderLine pre nm true rest.isEmpty], sn'⟩
            rw [hr] at this
            exact this
          cases b with
          | true => exact seenSub_trans hsub h1
          | false => exact seenSub_trans hsub (seenSub_trans h1 (ih pre depth st₂))

theorem walk_seenSub (ops : FsOps) (flt : Filters) (md : Option Int)
    (follow : Bool) :
    ∀ (fuel : Nat) (d pre : String) (depth : Int) (st : WState),
      seenSub st.sn ((walk ops flt md follow fuel d pre depth st).1).sn := by
  intro fuel
  induction fuel with
  | zero => intro d pre depth st; exact seenSub_refl _
  | succ n ih =>
    intro d pre depth st
    rw [walk_succ]
    by_cases h1 : depthExceeded md depth = true
    · rw [if_pos h1]; exact seenSub_refl _
    · rw [if_neg h1]
      by_cases h2 : (ops.scan d).2 = true
      · rw [if_pos h2]; exact seenSub_refl _
      · rw [if_neg h2]
        exact go_seenSub ops flt follow _ (fun p pre' depth' st' => ih p pre' depth' st')
          (childEntries ops flt follow d) pre depth st

/-! ### Helper lemmas: fuel independence with cycle detection enabled -/

theorem go_congr (ops : FsOps) (flt : Filters) {D : Finset (Int × Int)}
    {R : Finset String} (hb : IdBound ops D R)
    (recur₁ recur₂ : String → String → Int → WState → WState × Bool)
    (hmono : ∀ p pre depth st, seenSub st.sn ((recur₁ p pre depth st).1).sn)
    (N : Nat)
    (hrec : ∀ p pre depth st, remaining D R st.sn < N →
      recur₁ p pre depth st = recur₂ p pre depth st) :
    ∀ (l : List EntryT) (pre : String) (depth : Int) (st : WState),
      remaining D R st.sn ≤ N →
      walkEntriesGo ops flt true recur₁ pre depth l st =
        walkEntriesGo ops flt true recur₂ pre depth l st := by
  intro l
  induction l with
  | nil => intro pre depth st _; rfl
  | cons e rest ih =>
    rcases e with ⟨p, nm, isDir⟩
    intro pre depth st hN
    cases isDir with
    | false =>
      rw [go_cons_nondir, go_cons_nondir]
      exact ih pre depth (pushLine st (renderLine pre nm false rest.isEmpty)) hN
    | true =>
      rcases hm : markSeen ops st.sn p with ⟨mb, sn'⟩
      cases mb with
      | true =>
        rw [go_cons_follow_seen ops flt recur₁ pre depth p nm rest st (by rw [hm]),
          go_cons_follow_seen ops flt recur₂ pre depth p nm rest st (by rw [hm])]
        exact ih pre depth
          ⟨st.lines ++ [renderLine pre nm true rest.isEmpty, cycleLine pre rest.isEmpty],
            st.sn⟩ hN
      | false =>
        rw [go_cons_follow_new ops flt recur₁ pre depth p nm rest st sn' hm,
          go_cons_follow_new ops flt recur₂ pre depth p nm rest st sn' hm]
        have hlt : remaining D R sn' < remaining D R st.sn :=
          markSeen_false_remaining hb hm
        have hcall : recur₁ p (pre ++ childExt rest.isEmpty) (depth + 1)
            ⟨st.lines ++ [renderLine pre nm true rest.isEmpty], sn'⟩ =
            recur₂ p (pre ++ childExt rest.isEmpty) (depth + 1)
            ⟨st.lines ++ [renderLine pre nm true rest.isEmpty], sn'⟩ :=
          hrec p (pre ++ childExt rest.isEmpty) (depth + 1)
            ⟨st.lines ++ [renderLine pre nm true rest.isEmpty], sn'⟩
            (lt_of_lt_of_le hlt hN)
        rw [← hcall]
        rcases hr : recur₁ p (pre ++ childExt rest.isEmpty) (depth + 1)
            ⟨st.lines ++ [renderLine pre nm true rest.isEmpty], sn'⟩ with ⟨st₂, b⟩
        cases b with
        | true => rfl
        | false =>
          have hsub : seenSub sn' st₂.sn := by
            have := hmono p (pre ++ childExt rest.isEmpty) (depth + 1)
              ⟨st.lines ++ [renderLine pre nm true rest.isEmpty], sn'⟩
            rw [hr] at this
            exact this
          have hN₂ : remaining D R st₂.sn ≤ N :=
            le_trans (remaining_mono hsub) (le_of_lt (lt_of_lt_of_le hlt hN))
          exact ih pre depth st₂ hN₂

theorem walk_congr_fuel (ops : FsOps) (flt : Filters) (md : Option Int)
    {D : Finset (Int × Int)} {R : Finset String} (hb : IdBound ops D R) :
    ∀ (n m : Nat) (st : WState) (d pre : String) (depth : Int),
      remaining D R st.sn < n → remaining D R st.sn < m →
      walk ops flt md true n d pre depth st = walk ops flt md true m d pre depth st := by
  intro n
  induction n using Nat.strong_induction_on with
  | _ n IH =>
    intro m st d pre depth hn hm
    obtain ⟨n', rfl⟩ : ∃ n', n = n' + 1 := ⟨n - 1, by omega⟩
    obtain ⟨m', rfl⟩ : ∃ m', m = m' + 1 := ⟨m - 1, by omega⟩
    rw [walk_succ, walk_succ]
    by_cases h1 : depthExceeded md depth = true
    · rw [if_pos h1, if_pos h1]
    · rw [if_neg h1, if_neg h1]
      by_cases h2 : (ops.scan d).2 = true
      · rw [if_pos h2, if_pos h2]
      · rw [if_neg h2, if_neg h2]
        apply go_congr ops flt hb (walk ops flt md true n') (walk ops flt md true m')
          (fun p pre' depth' st' => walk_seenSub ops flt md true n' p pre' depth' st')
          (remaining D R st.sn)
        · intro p pre' depth' st' hlt
          exact IH n' (by omega) m' st' p pre' depth'
            (lt_of_lt_of_le hlt (by omega)) (lt_of_lt_of_le hlt (by omega))
        · exact le_refl _

theorem treeCore_fuel_stable (ops : FsOps) (rootArg : String) (flt : Filters)
    (md : Option Int) {D : Finset (Int × Int)} {R : Finset String}
    (hb : IdBound ops D R) (f₁ f₂ : Nat)
    (h₁ : D.card + R.card < f₁) (h₂ : D.card + R.card < f₂) :
    treeCore ops rootArg flt md true f₁ = treeCore ops rootArg flt md true f₂ := by
  unfold treeCore
  by_cases hex : ops.pexists (ops.res rootArg) = true
  · by_cases hdir : ops.pisd (ops.res rootArg) = true
    · simp only [hex, hdir, Bool.not_true, Bool.false_eq_true, if_false]
      have hst : ∀ sn : Seen, remaining D R sn ≤ D.card + R.card := fun sn =>
        remaining_le D R sn
      have := walk_congr_fuel ops flt md hb f₁ f₂
        ⟨[ops.res rootArg ++ "/"], (markSeen ops ⟨[], []⟩ (ops.res rootArg)).2⟩
        (ops.res rootArg) "" 1
        (lt_of_le_of_lt (hst _) h₁) (lt_of_le_of_lt (hst _) h₂)
      simp only [if_true]
      rw [this]
    · simp [hex, hdir]
  · simp [hex]


/-! ### The claims -/

/-- C1: with `followSymlinks=true` on a finite filesystem (finitely many
durable identities), `tree` terminates — the fuelled walk is independent of
the fuel once it exceeds the number of identities — and at the point where an
already-visited directory identity is re-encountered, the walker emits the
entry line followed by exactly one cycle-marker line and continues with the
remaining siblings without recursing into that directory. -/
theorem claim_C1 :
    (∀ (fs : Fs) (D : Finset (Int × Int)) (R : Finset String) (rootArg : String)
        (flt : Filters) (md : Option Int) (f₁ f₂ : Nat),
      IdBound (opsOf fs) D R → D.card + R.card < f₁ → D.card + R.card < f₂ →
      tree fs rootArg flt md true f₁ = tree fs rootArg flt md true f₂) ∧
    (∀ (ops : FsOps) (flt : Filters)
        (recur : String → String → Int → WState → WState × Bool)
        (pre : String) (depth : Int) (p nm : String) (rest : List EntryT)
        (st : WState),
      (markSeen ops st.sn p).1 = true →
      walkEntriesGo ops flt true recur pre depth ((p, nm, true) :: rest) st =
        walkEntriesGo ops flt true recur pre depth rest
          ⟨st.lines ++ [renderLine pre nm true rest.isEmpty,
              cycleLine pre rest.isEmpty], st.sn⟩) := by
  constructor
  · intro fs D R rootArg flt md f₁ f₂ hb h₁ h₂
    exact treeCore_fuel_stable (opsOf fs) rootArg flt md hb f₁ f₂ h₁ h₂
  · intro ops flt recur pre depth p nm rest st h
    exact go_cons_follow_seen ops flt recur pre depth p nm rest st h

theorem claim_C1_witness :
    (IdBound (opsOf fsLoop) loopD loopR ∧ loopD.card + loopR.card < 5 ∧
      loopD.card + loopR.card < 9 ∧
      tree fsLoop "/a" defaultFlt none true 5 = tree fsLoop "/a" defaultFlt none true 9) ∧
    ((markSeen (opsOf fsLoop) (⟨["/a/"], ⟨[(1, 1)], []⟩⟩ : WState).sn "/a/b/up").1 = true ∧
      walkEntriesGo (opsOf fsLoop) defaultFlt true
          (walk (opsOf fsLoop) defaultFlt none true 2) "│   " 2
          [("/a/b/up", "up", true)] ⟨["/a/"], ⟨[(1, 1)], []⟩⟩ =
        walkEntriesGo (opsOf fsLoop) defaultFlt true
          (walk (opsOf fsLoop) defaultFlt none true 2) "│   " 2 []
          ⟨["/a/", "│   └── up/", "│       ↩︎ (cycle)"], ⟨[(1, 1)], []⟩⟩) := by
  have hb : IdBound (opsOf fsLoop) loopD loopR := by
    constructor
    · intro p k h hne
      simp only [opsOf, fsLoop] at h
      split at h
      · injection h with h2; subst h2; decide
      · split at h
        · injection h with h2; subst h2; decide
        · split at h
          · injection h with h2; subst h2; decide
          · injection h with h2; subst h2; decide
    · intro p h
      exfalso
      rcases h with h | h
      all_goals simp only [opsOf, fsLoop] at h
      all_goals split at h
      all_goals try split at h
      all_goals try split at h
      all_goals simp at h
      all_goals exact absurd h (by decide)
  refine ⟨⟨hb, by decide, by decide, claim_C1.1 fsLoop loopD loopR "/a" defaultFlt none 5 9 hb (by decide) (by decide)⟩, rfl, ?_⟩
  exact claim_C1.2 (opsOf fsLoop) defaultFlt
    (walk (opsOf fsLoop) defaultFlt none true 2) "│   " 2 "/a/b/up" "up" []
    ⟨["/a/"], ⟨[(1, 1)], []⟩⟩ rfl

/-- C2: for every filesystem, filter config and `followSymlinks` setting,
the surviving children of any directory — exactly the sequence whose lines
the walker then emits in order, by the second conjunct — are ordered with
every directory entry before every non-directory entry and, within each
group, case-insensitively ascending names. -/
theorem claim_C2 :
    ∀ (ops : FsOps) (flt : Filters) (follow : Bool) (d : String),
      List.Pairwise
        (fun a b : EntryT => (b.2.2 = true → a.2.2 = true) ∧
          (a.2.2 = b.2.2 → lstrLe (lowerChars a.2.1) (lowerChars b.2.1) = true))
        (childEntries ops flt follow d) ∧
      ∀ (md : Option Int) (fuel : Nat) (pre : String) (depth : Int) (st : WState),
        walk ops flt md follow (fuel + 1) d pre depth st =
          (if depthExceeded md depth then (st, false)
           else if (ops.scan d).2 then (st, true)
           else walkEntriesGo ops flt follow (walk ops flt md follow fuel) pre depth
             (childEntries ops flt follow d) st) := by
  intro ops flt follow d
  constructor
  · have hs : List.Pairwise entryLe
        (List.insertionSort entryLe
          ((ops.scan d).1.map
            (fun nm => (pathJoin d nm, nm, ops.isd (pathJoin d nm) follow)))) :=
      List.sorted_insertionSort entryLe _
    have hf : List.Pairwise entryLe (childEntries ops flt follow d) := by
      unfold childEntries
      exact List.Pairwise.sublist (List.filter_sublist _) hs
    exact hf.imp (fun hab => entryLe_imp _ _ hab)
  · intro md fuel pre depth st
    rfl

/-- C3: `tree` fails with the not-found error exactly when the resolved root
does not exist, and with the not-a-directory error exactly when it exists but
is not a directory; an error result carries no output lines and is returned
before any directory is listed. -/
theorem claim_C3 :
    ∀ (fs : Fs) (rootArg : String) (flt : Filters) (md : Option Int)
      (follow : Bool) (fuel : Nat),
      (tree fs rootArg flt md follow fuel =
          .error (.notFound (fs.resolve rootArg)) ↔
        fs.pathExists (fs.resolve rootArg) = false) ∧
      (tree fs rootArg flt md follow fuel =
          .error (.notADirectory (fs.resolve rootArg)) ↔
        (fs.pathExists (fs.resolve rootArg) = true ∧
          fs.pIsDir (fs.resolve rootArg) = false)) := by
  intro fs rootArg flt md follow fuel
  unfold tree treeCore opsOf
  dsimp only
  cases hex : fs.pathExists (fs.resolve rootArg) with
  | false => simp
  | true =>
    cases hdir : fs.pIsDir (fs.resolve rootArg) with
    | false => simp
    | true =>
      simp only [Bool.not_true, Bool.false_eq_true, if_false]
      rcases hw : walk
          ⟨fun d => ((fs.scandirRaw d).1, scanRaises (fs.scandirRaw d).2),
            fun p f => (fs.isDirEntry p f).getD false, fs.pIsDir, fs.statKey,
            fs.resolve, fs.pathExists⟩
          flt md follow fuel (fs.resolve rootArg) "" 1
          (if follow then
            ⟨[fs.resolve rootArg ++ "/"],
              (markSeen
                ⟨fun d => ((fs.scandirRaw d).1, scanRaises (fs.scandirRaw d).2),
                  fun p f => (fs.isDirEntry p f).getD false, fs.pIsDir, fs.statKey,
                  fs.resolve, fs.pathExists⟩ ⟨[], []⟩ (fs.resolve rootArg)).2⟩
          else ⟨[fs.resolve rootArg ++ "/"], ⟨[], []⟩⟩) with ⟨st, b⟩
      cases b <;> simp [hw]

/-- C4: depth counting starts at 1 for the root's children: a walk called at
a depth beyond `maxDepth` does nothing (so children of directories at depth
`maxDepth` are never enumerated, while those directories were already printed
by their parent), and on the chain `/a/b/c` with `maxDepth=1` the output is
exactly `/a/` and `└── b/`. -/
theorem claim_C4 :
    (∀ (ops : FsOps) (flt : Filters) (m : Int) (follow : Bool) (fuel : Nat)
        (d pre : String) (depth : Int) (st : WState), m < depth →
      walk ops flt (some m) follow fuel d pre depth st = (st, false)) ∧
    tree fsChain "/a" defaultFlt (some 1) false 10 = .ok ["/a/", "└── b/"] := by
  constructor
  · intro ops flt m follow fuel d pre depth st h
    exact walk_stop ops flt (some m) follow fuel d pre depth st
      (by unfold depthExceeded; exact decide_eq_true h)
  · rfl

theorem claim_C4_witness :
    (1 : Int) < 2 ∧
      walk (opsOf fsChain) defaultFlt (some 1) false 4 "/a/b" "    " 2
          ⟨["/a/", "└── b/"], ⟨[], []⟩⟩ =
        (⟨["/a/", "└── b/"], ⟨[], []⟩⟩, false) :=
  ⟨by decide,
    claim_C4.1 (opsOf fsChain) defaultFlt 1 false 4 "/a/b" "    " 2
      ⟨["/a/", "└── b/"], ⟨[], []⟩⟩ (by decide)⟩

/-- C7: on root `/a` containing the empty directory `b` and the file `x.txt`,
the default configuration produces exactly the three lines of the spec
scenario, in order. -/
theorem claim_C7 :
    tree fsA "/a" defaultFlt none false 10 =
      .ok ["/a/", "├── b/", "└── x.txt"] := rfl

/-- C9: the engine is deterministic — the output lines of `tree` are a
function of the filesystem and the configuration alone, and each run builds
its visited sets and accumulator afresh (they are created inside `tree`), so
two invocations with identical inputs return identical line sequences. -/
theorem claim_C9 :
    ∀ (fs : Fs) (rootArg : String) (flt : Filters) (md : Option Int)
      (follow : Bool) (fuel : Nat) (l₁ l₂ : List String),
      tree fs rootArg flt md follow fuel = .ok l₁ →
      tree fs rootArg flt md follow fuel = .ok l₂ → l₁ = l₂ := by
  intro fs rootArg flt md follow fuel l₁ l₂ h₁ h₂
  rw [h₁] at h₂
  exact Except.ok.inj h₂

theorem claim_C9_witness :
    tree fsA "/a" defaultFlt none false 6 = .ok ["/a/", "├── b/", "└── x.txt"] ∧
      (["/a/", "├── b/", "└── x.txt"] : List String) =
        ["/a/", "├── b/", "└── x.txt"] :=
  ⟨rfl, claim_C9 fsA "/a" defaultFlt none false 6 _ _ rfl rfl⟩


/-- C5 (counterexample): a directory-listing failure that is an `OSError`
other than `PermissionError`/`FileNotFoundError` *does* propagate out of
`tree` (lines 50-58 catch only those two), aborting the walk instead of
contributing zero entries and continuing. -/
theorem claim_C5_counterexample :
    tree fsErr "/a" defaultFlt none false 3 = .error .osError ∧
      tree fsErr "/a" defaultFlt none false 3 ≠ .ok ["/a/"] := by
  refine ⟨rfl, fun h => ?_⟩
  rw [show tree fsErr "/a" defaultFlt none false 3 =
      Except.error TreeError.osError from rfl] at h
  exact Except.noConfusion h

/-- C5 (amended): permission and not-found listing failures are swallowed —
the failing directory contributes exactly the entries already yielded and
nothing further — and a failing per-entry directory-type check is treated as
"not a directory", with the walk continuing: erasing all such caught failures
from the filesystem leaves `tree`'s result unchanged.  A listing failure that
is any other `OSError`, however, propagates and aborts the traversal. -/
theorem claim_C5 :
    (∀ (fs : Fs) (rootArg : String) (flt : Filters) (md : Option Int)
        (follow : Bool) (fuel : Nat),
      tree (eraseCaughtErrors fs) rootArg flt md follow fuel =
        tree fs rootArg flt md follow fuel) ∧
    (∀ (fs : Fs) (rootArg : String) (flt : Filters) (md : Option Int)
        (follow : Bool) (fuel : Nat),
      fs.pathExists (fs.resolve rootArg) = true →
      fs.pIsDir (fs.resolve rootArg) = true →
      depthExceeded md 1 = false →
      scanRaises (fs.scandirRaw (fs.resolve rootArg)).2 = true →
      tree fs rootArg flt md follow (fuel + 1) = .error .osError) := by
  constructor
  · intro fs rootArg flt md follow fuel
    have hops : opsOf (eraseCaughtErrors fs) = opsOf fs := by
      unfold opsOf eraseCaughtErrors
      congr 1
      funext d
      show ((fs.scandirRaw d).1, scanRaises (keepOnlyRaising (fs.scandirRaw d).2)) =
        ((fs.scandirRaw d).1, scanRaises (fs.scandirRaw d).2)
      rcases hsc : fs.scandirRaw d with ⟨l, e⟩
      cases e with
      | none => rfl
      | some s => cases s <;> rfl
    unfold tree
    rw [hops]
  · intro fs rootArg flt md follow fuel hex hdir hde hraise
    have hex' : (opsOf fs).pexists ((opsOf fs).res rootArg) = true := hex
    have hdir' : (opsOf fs).pisd ((opsOf fs).res rootArg) = true := hdir
    have hraise' : ((opsOf fs).scan ((opsOf fs).res rootArg)).2 = true := hraise
    unfold tree treeCore
    simp only [hex', hdir', Bool.not_true, Bool.false_eq_true, if_false]
    rw [walk_succ, if_neg (by rw [hde]; simp), if_pos hraise']

/-- C6 (counterexample): with `followSymlinks=false` and `dirsOnly=true`, a
symbolic link to a directory is *not* excluded by the filter — `should_ignore`
uses `Path.is_dir()`, which always follows symlinks — even though the sort and
the renderer treat the same entry as a non-directory (its line has no trailing
slash), contradicting the claim that the filter also sees it as a
non-directory (which would exclude it under `dirsOnly`). -/
theorem claim_C6_counterexample :
    (opsOf fsLink).isd "/a/link" false = false ∧
      should_ignore (opsOf fsLink) "/a/link" "link" dirsOnlyFlt = false ∧
      tree fsLink "/a" dirsOnlyFlt none false 5 = .ok ["/a/", "└── link"] :=
  ⟨rfl, rfl, rfl⟩

/-- C6 (amended): when `followSymlinks` is false a symlink to a directory is
rendered and sorted as a non-directory (the entry's directory-ness is computed
with `follow_symlinks=false`, second conjunct), and it is not recursed into;
but the `dirsOnly` filter rule uses `Path.is_dir()`, which always follows
symlinks, so such a symlink is treated as a directory by the filter and is
not excluded (first conjunct). -/
theorem claim_C6 :
    (∀ (ops : FsOps) (p name : String),
      should_ignore ops p name dirsOnlyFlt = !ops.pisd p) ∧
    (∀ (ops : FsOps) (flt : Filters) (follow : Bool) (d : String) (e : EntryT),
      e ∈ childEntries ops flt follow d → e.2.2 = ops.isd e.1 follow) := by
  constructor
  · intro ops p name
    cases h : ops.pisd p <;>
      simp [should_ignore, dirsOnlyFlt, matches_any_glob, patternBlocks, h]
  · intro ops flt follow d e he
    unfold childEntries at he
    rw [List.mem_filter] at he
    have h2 := he.1
    rw [List.mem_insertionSort, List.mem_map] at h2
    obtain ⟨nm, _, h3⟩ := h2
    subst h3
    rfl

theorem claim_C6_witness :
    should_ignore (opsOf fsLink) "/a/link" "link" dirsOnlyFlt =
        !(opsOf fsLink).pisd "/a/link" ∧
      (("/a/link", "link", false) : EntryT) ∈
        childEntries (opsOf fsLink) dirsOnlyFlt false "/a" ∧
      (("/a/link", "link", false) : EntryT).2.2 = (opsOf fsLink).isd "/a/link" false := by
  have hmem : (("/a/link", "link", false) : EntryT) ∈
      childEntries (opsOf fsLink) dirsOnlyFlt false "/a" := by
    rw [show childEntries (opsOf fsLink) dirsOnlyFlt false "/a" =
        [("/a/link", "link", false)] from rfl]
    exact List.mem_singleton_self _
  exact ⟨claim_C6.1 (opsOf fsLink) "/a/link" "link", hmem,
    claim_C6.2 (opsOf fsLink) dirsOnlyFlt false "/a" _ hmem⟩

/-- C8: an entry is excluded iff at least one of the five filter rules fires
(the rules are evaluated in order with the first match winning, which for the
boolean outcome is the disjunction below), and turning `showHidden` on never
shrinks the included set: an entry included with any configuration is still
included after setting `showHidden := true` with all other fields fixed. -/
theorem claim_C8 :
    ∀ (ops : FsOps) (p name : String) (flt : Filters),
      (should_ignore ops p name flt =
        (rule_hidden flt name || rule_ignore_name flt name ||
          rule_ignore_glob flt name || rule_pattern_miss flt name ||
          rule_dirs_only ops flt p)) ∧
      (should_ignore ops p name flt = false →
        should_ignore ops p name
          (Filters.mk true flt.dirs_only flt.pattern flt.ignore_names
            flt.ignore_globs) = false) := by
  have heq : ∀ (ops : FsOps) (p name : String) (g : Filters),
      should_ignore ops p name g =
        (rule_hidden g name || rule_ignore_name g name ||
          rule_ignore_glob g name || rule_pattern_miss g name ||
          rule_dirs_only ops g p) := by
    intro ops p name g
    unfold should_ignore rule_hidden rule_ignore_name rule_ignore_glob
      rule_pattern_miss rule_dirs_only
    cases h1 : (!g.show_hidden && is_hidden name) <;>
      cases h2 : g.ignore_names.contains name <;>
      cases h3 : matches_any_glob name g.ignore_globs <;>
      cases h4 : patternBlocks g.pattern name <;>
      cases h5 : (g.dirs_only && !ops.pisd p) <;>
      simp [h1, h2, h3, h4, h5]
  intro ops p name flt
  refine ⟨heq ops p name flt, ?_⟩
  intro h
  rw [heq] at h
  rw [heq]
  simp only [Bool.or_eq_false_iff] at h ⊢
  obtain ⟨⟨⟨⟨_, h2⟩, h3⟩, h4⟩, h5⟩ := h
  exact ⟨⟨⟨⟨by simp [rule_hidden], h2⟩, h3⟩, h4⟩, h5⟩

theorem claim_C8_witness :
    should_ignore (opsOf fsA) "/a/x.txt" "x.txt" hideDotFlt = false ∧
      should_ignore (opsOf fsA) "/a/x.txt" "x.txt"
        (Filters.mk true hideDotFlt.dirs_only hideDotFlt.pattern
          hideDotFlt.ignore_names hideDotFlt.ignore_globs) = false :=
  ⟨rfl, (claim_C8 (opsOf fsA) "/a/x.txt" "x.txt" hideDotFlt).2 rfl⟩

/-- C10: with `followSymlinks=true`, a surviving directory entry has its
durable identity inserted into the visited set when its line is emitted,
*before* the depth cutoff is consulted: even when the child walk is cut off
by `maxDepth` (first conjunct — the walk is a no-op but the marked state is
kept), the identity is recorded (second conjunct), and any later encounter of
the same durable identity makes `mark_seen` report it as seen without
modifying the state (third conjunct), which triggers the cycle marker instead
of recursion. -/
theorem claim_C10 :
    (∀ (ops : FsOps) (flt : Filters) (m : Int) (fuel : Nat) (pre : String)
        (depth : Int) (p nm : String) (rest : List EntryT) (st : WState)
        (sn' : Seen),
      markSeen ops st.sn p = (false, sn') → m < depth + 1 →
      walkEntriesGo ops flt true (walk ops flt (some m) true fuel) pre depth
          ((p, nm, true) :: rest) st =
        walkEntriesGo ops flt true (walk ops flt (some m) true fuel) pre depth
          rest ⟨st.lines ++ [renderLine pre nm true rest.isEmpty], sn'⟩) ∧
    (∀ (ops : FsOps) (sn : Seen) (p : String),
      idRecorded ops p (markSeen ops sn p).2) ∧
    (∀ (ops : FsOps) (sn : Seen) (p : String),
      idRecorded ops p sn → markSeen ops sn p = (true, sn)) := by
  refine ⟨?_, markSeen_records, markSeen_of_recorded⟩
  intro ops flt m fuel pre depth p nm rest st sn' hm hd
  rw [go_cons_follow_new ops flt _ pre depth p nm rest st sn' hm]
  rw [walk_stop ops flt (some m) true fuel p (pre ++ childExt rest.isEmpty)
    (depth + 1) ⟨st.lines ++ [renderLine pre nm true rest.isEmpty], sn'⟩
    (by unfold depthExceeded; exact decide_eq_true hd)]

theorem claim_C10_witness :
    (markSeen (opsOf fsTwo) (⟨["/a/"], ⟨[(4, 1)], []⟩⟩ : WState).sn "/a/b" =
        (false, ⟨[(4, 2), (4, 1)], []⟩) ∧
      (1 : Int) < 1 + 1 ∧
      walkEntriesGo (opsOf fsTwo) defaultFlt true
          (walk (opsOf fsTwo) defaultFlt (some 1) true 3) "" 1
          [("/a/b", "b", true), ("/a/link", "link", true)]
          ⟨["/a/"], ⟨[(4, 1)], []⟩⟩ =
        walkEntriesGo (opsOf fsTwo) defaultFlt true
          (walk (opsOf fsTwo) defaultFlt (some 1) true 3) "" 1
          [("/a/link", "link", true)]
          ⟨["/a/", "├── b/"], ⟨[(4, 2), (4, 1)], []⟩⟩) ∧
    idRecorded (opsOf fsTwo) "/a/b"
      (markSeen (opsOf fsTwo) ⟨[(4, 1)], []⟩ "/a/b").2 ∧
    (idRecorded (opsOf fsTwo) "/a/link" ⟨[(4, 2), (4, 1)], []⟩ ∧
      markSeen (opsOf fsTwo) ⟨[(4, 2), (4, 1)], []⟩ "/a/link" =
        (true, ⟨[(4, 2), (4, 1)], []⟩)) := by
  have hrec : idRecorded (opsOf fsTwo) "/a/link" ⟨[(4, 2), (4, 1)], []⟩ := by
    unfold idRecorded
    dsimp only [opsOf, fsTwo]
    simp
  refine ⟨⟨rfl, by decide, ?_⟩, claim_C10.2.1 (opsOf fsTwo) ⟨[(4, 1)], []⟩ "/a/b",
    hrec, claim_C10.2.2 (opsOf fsTwo) ⟨[(4, 2), (4, 1)], []⟩ "/a/link" hrec⟩
  exact claim_C10.1 (opsOf fsTwo) defaultFlt 1 3 "" 1 "/a/b" "b"
    [("/a/link", "link", true)] ⟨["/a/"], ⟨[(4, 1)], []⟩⟩ ⟨[(4, 2), (4, 1)], []⟩
    rfl (by decide)


theorem claim_C3_witness :
    tree fsA "/b" defaultFlt none false 4 = .error (.notFound "/b") :=
  (claim_C3 fsA "/b" defaultFlt none false 4).1.mpr rfl

theorem claim_C5_witness :
    (fsErr.pathExists (fsErr.resolve "/a") = true ∧
      fsErr.pIsDir (fsErr.resolve "/a") = true ∧
      depthExceeded none 1 = false ∧
      scanRaises (fsErr.scandirRaw (fsErr.resolve "/a")).2 = true ∧
      tree fsErr "/a" defaultFlt none false 3 = .error .osError) ∧
    tree (eraseCaughtErrors fsA) "/a" defaultFlt none false 7 =
      tree fsA "/a" defaultFlt none false 7 :=
  ⟨⟨rfl, rfl, rfl, rfl, claim_C5.2 fsErr "/a" defaultFlt none false 2 rfl rfl rfl rfl⟩,
    claim_C5.1 fsA "/a" defaultFlt none false 7⟩


end Tmee
